import Mathlib

/-!
# HAT native backends: kernel argument binding, kernel handles, configuration bits

A shallow embedding of

* `hat/backends/ffi/cuda/src/main/native/cpp/cuda_backend_kernel.cpp`
  (`CudaKernel::CudaKernel`, `CudaKernel::of`, both `CudaKernel::setArg` overloads);
* `hat/backends/ffi/opencl/include/opencl_backend.h`
  (the `OpenCLConfig` bit constants and the fields of `OpenCLQueue`).

Objects live in a `Memory` indexed by machine addresses.  A `void *` held in an
argument slot is kept as the address expression the source computes
(`&arg->value`, `&cudaBuffer->devicePtr`), so that what a slot delivers is
obtained by a load through it in the memory of that moment.
-/

namespace Hat

/-! ## Memory -/

/-- A machine address; `0` is `nullptr`. -/
abbrev Ptr := Nat

/-- The null pointer. -/
def nullptr : Ptr := 0

/-- The two fields of `KernelArg` that the kernel source reads: the slot index
`idx` and the scalar payload `value` (the bits of the value union). -/
structure KernelArg where
  idx : Nat
  value : Nat
deriving DecidableEq, Repr

/-- A live `Buffer` object with its dynamic type: a `CudaBuffer`, which has
the field `devicePtr`, or a `Buffer` of some other class. -/
inductive Buffer where
  | cudaBuffer (devicePtr : Nat)
  | otherBuffer
deriving DecidableEq, Repr

/-- The objects alive at each address.  `none` means that no object of that
kind lives there. -/
structure Memory where
  kernelArgs : Ptr → Option KernelArg
  buffers : Ptr → Option Buffer

/-- The assignment `arg->value = v` on the `KernelArg` at address `arg`. -/
def Memory.assignValue (m : Memory) (arg : Ptr) (v : Nat) : Memory :=
  { m with
    kernelArgs := fun p =>
      if p = arg then (m.kernelArgs p).map (fun a => { a with value := v })
      else m.kernelArgs p }

/-- The assignment `buffer->devicePtr = d` on the `CudaBuffer` at address
`buf`; a `Buffer` of another class has no such field and is left alone. -/
def Memory.assignDevicePtr (m : Memory) (buf : Ptr) (d : Nat) : Memory :=
  { m with
    buffers := fun p =>
      if p = buf then
        match m.buffers p with
        | some (Buffer.cudaBuffer _) => some (Buffer.cudaBuffer d)
        | other => other
      else m.buffers p }

/-- The value of a `void *` stored in an argument slot. -/
inductive VoidPtr where
  | null
  | valueOf (arg : Ptr)
  | devicePtrOf (buf : Ptr)
deriving DecidableEq, Repr

/-- What a read through the pointer yields in memory `m`: the current `value`
of the `KernelArg`, or the current `devicePtr` of the `CudaBuffer`, it points
into; `none` when it points into no live object. -/
def Memory.load (m : Memory) : VoidPtr → Option Nat
  | VoidPtr.null => none
  | VoidPtr.valueOf arg =>
    if arg = nullptr then none else (m.kernelArgs arg).map (fun a => a.value)
  | VoidPtr.devicePtrOf buf =>
    if buf = nullptr then none
    else
      match m.buffers buf with
      | some (Buffer.cudaBuffer d) => some d
      | _ => none

/-- The cast `dynamic_cast<CudaBuffer *>(buffer)`: the same address for a
live `CudaBuffer`, `nullptr` for a null pointer and for a live `Buffer` of
another class.  A pointer to no live object has no defined cast (`none`). -/
def dynamicCastCudaBuffer (m : Memory) (buffer : Ptr) : Option Ptr :=
  if buffer = nullptr then some nullptr
  else
    match m.buffers buffer with
    | some (Buffer.cudaBuffer _) => some buffer
    | some Buffer.otherBuffer => some nullptr
    | none => none

/-! ## CudaKernel -/

/-- The state of a `CudaKernel`: `program` and `name` (held by the `Kernel`
base), the `CUfunction`, and the array `argslist`.  The declared bound of
`argslist` is in the header, which is not among the sources: it is the length
of the list here, so every bound is covered. -/
structure CudaKernel where
  program : Ptr
  name : Ptr
  function : Nat
  argslist : List VoidPtr
deriving DecidableEq, Repr

/-- The constructor `CudaKernel(program, name, function)`: it passes `program`
and `name` to the base and keeps `function`.  `slots` is the array as the
header declares it. -/
def CudaKernel.create (program name : Ptr) (function : Nat) (slots : List VoidPtr) :
    CudaKernel :=
  { program := program, name := name, function := function, argslist := slots }

/-- The number of argument slots of the kernel. -/
def CudaKernel.arity (k : CudaKernel) : Nat := k.argslist.length

/-- `CudaKernel::of(long kernelHandle)`: `reinterpret_cast` of the 64-bit
handle to a pointer, which keeps the bit pattern. -/
def CudaKernel.of (kernelHandle : Int) : Ptr := (kernelHandle % 2 ^ 64).toNat

/-- The kernel with `p` in slot `i` of `argslist`, for a slot of the array. -/
def CudaKernel.withSlot (k : CudaKernel) (i : Nat) (p : VoidPtr) : CudaKernel :=
  { k with argslist := k.argslist.set i p }

/-- The assignment `argslist[i] = p`, which the source makes without a test
of `i`.  For `i` within the array it changes that slot.  For `i` past the end
it is a store outside the array, which C++ leaves undefined: `none`, no
result and no state after it. -/
def CudaKernel.store (k : CudaKernel) (i : Nat) (p : VoidPtr) : Option CudaKernel :=
  if i < k.argslist.length then some (k.withSlot i p) else none

/-- `CudaKernel::setArg(KernelArg *arg)`: stores `&arg->value` at
`argslist[arg->idx]` and returns `true`.  `none` where the call is undefined:
when `arg` points to no live `KernelArg`, and when the store is outside the
array. -/
def CudaKernel.setArg (k : CudaKernel) (m : Memory) (arg : Ptr) :
    Option (Bool × CudaKernel) :=
  match m.kernelArgs arg with
  | none => none
  | some a =>
    match k.store a.idx (VoidPtr.valueOf arg) with
    | none => none
    | some k1 => some (true, k1)

/-- `CudaKernel::setArg(KernelArg *arg, Buffer *buffer)`: stores
`&dynamic_cast<CudaBuffer *>(buffer)->devicePtr` at `argslist[arg->idx]` and
returns `true`.  The address of the field is formed without a read and
without a test of the cast, also when the cast yields `nullptr`.  `none`
where the call is undefined: when `arg` points to no live `KernelArg`, when
`buffer` is a non-null pointer to no live `Buffer`, and when the store is
outside the array. -/
def CudaKernel.setArgBuffer (k : CudaKernel) (m : Memory) (arg buffer : Ptr) :
    Option (Bool × CudaKernel) :=
  match m.kernelArgs arg with
  | none => none
  | some a =>
    match dynamicCastCudaBuffer m buffer with
    | none => none
    | some cudaBuffer =>
      match k.store a.idx (VoidPtr.devicePtrOf cudaBuffer) with
      | none => none
      | some k1 => some (true, k1)

/-- What slot `s` delivers when the kernel is launched in memory `m`: the
launch reads each parameter through the pointer held in its slot. -/
def CudaKernel.launchArg (k : CudaKernel) (m : Memory) (s : Nat) : Option Nat :=
  match k.argslist[s]? with
  | none => none
  | some p => m.load p

/-- One call of `setArg`: the scalar overload or the buffer overload. -/
inductive Binding where
  | scalar (arg : Ptr)
  | buffer (arg : Ptr) (buf : Ptr)
deriving DecidableEq, Repr

/-- The `KernelArg *` of a call. -/
def Binding.arg : Binding → Ptr
  | Binding.scalar arg => arg
  | Binding.buffer arg _ => arg

/-- The call of `setArg` that the binding stands for. -/
def CudaKernel.bind (k : CudaKernel) (m : Memory) : Binding → Option (Bool × CudaKernel)
  | Binding.scalar arg => k.setArg m arg
  | Binding.buffer arg buf => k.setArgBuffer m arg buf

/-- The pointer that the call leaves in its slot. -/
def Binding.pointer (m : Memory) : Binding → Option VoidPtr
  | Binding.scalar arg => some (VoidPtr.valueOf arg)
  | Binding.buffer _ buf => (dynamicCastCudaBuffer m buf).map VoidPtr.devicePtrOf

/-- The call is well defined in memory `m` and addresses slot `s`: its
`KernelArg` is live with `idx = s`, and for the buffer overload the buffer is
null or live. -/
def Binding.targets (m : Memory) (s : Nat) (b : Binding) : Prop :=
  (∃ a, m.kernelArgs b.arg = some a ∧ a.idx = s) ∧ (b.pointer m).isSome = true

/-- A sequence of `setArg` calls on the same kernel, in order; the result is
the kernel after the last call, `none` as soon as one call is undefined. -/
def CudaKernel.bindAll (k : CudaKernel) (m : Memory) : List Binding → Option CudaKernel
  | [] => some k
  | b :: bs =>
    match k.bind m b with
    | none => none
    | some (_, k1) => k1.bindAll m bs

/-! ## Sample states -/

/-- A memory with three `KernelArg`s (at 16 with `idx = 2`, at 32 with
`idx = 0`, at 48 with `idx = 1`), a `CudaBuffer` at 64 whose device pointer is
not yet set, and a `Buffer` of another class at 96. -/
def sampleMemory : Memory :=
  { kernelArgs := fun p =>
      if p = 16 then some { idx := 2, value := 42 }
      else if p = 32 then some { idx := 0, value := 5 }
      else if p = 48 then some { idx := 1, value := 6 }
      else none
    buffers := fun p =>
      if p = 64 then some (Buffer.cudaBuffer 0)
      else if p = 96 then some Buffer.otherBuffer
      else none }

/-- A kernel with two argument slots, nothing bound yet. -/
def sampleKernel : CudaKernel :=
  CudaKernel.create 4096 8192 7 [VoidPtr.null, VoidPtr.null]

/-! ## OpenCLConfig -/

namespace OpenCLConfig

/-- The constant `GPU_BIT = 1 << 1`. -/
def GPU_BIT : Int := ((1 <<< 1 : Nat) : Int)

/-- The constant `CPU_BIT = 1 << 2`. -/
def CPU_BIT : Int := ((1 <<< 2 : Nat) : Int)

/-- The constant `MINIMIZE_COPIES_BIT = 1 << 3`. -/
def MINIMIZE_COPIES_BIT : Int := ((1 <<< 3 : Nat) : Int)

/-- The constant `TRACE_BIT = 1 << 4`. -/
def TRACE_BIT : Int := ((1 <<< 4 : Nat) : Int)

/-- The constant `PROFILE_BIT = 1 << 5`. -/
def PROFILE_BIT : Int := ((1 <<< 5 : Nat) : Int)

/-- The constant `SHOW_CODE_BIT = 1 << 6`. -/
def SHOW_CODE_BIT : Int := ((1 <<< 6 : Nat) : Int)

/-- The constant `SHOW_KERNEL_MODEL_BIT = 1 << 7`. -/
def SHOW_KERNEL_MODEL_BIT : Int := ((1 <<< 7 : Nat) : Int)

/-- The constant `SHOW_COMPUTE_MODEL_BIT = 1 << 8`. -/
def SHOW_COMPUTE_MODEL_BIT : Int := ((1 <<< 8 : Nat) : Int)

/-- The constant `INFO_BIT = 1 << 9`. -/
def INFO_BIT : Int := ((1 <<< 9 : Nat) : Int)

/-- The constant `TRACE_COPIES_BIT = 1 << 10`. -/
def TRACE_COPIES_BIT : Int := ((1 <<< 10 : Nat) : Int)

/-- The ten flag constants, in the order of their declaration. -/
def flags : List Int :=
  [GPU_BIT, CPU_BIT, MINIMIZE_COPIES_BIT, TRACE_BIT, PROFILE_BIT, SHOW_CODE_BIT,
    SHOW_KERNEL_MODEL_BIT, SHOW_COMPUTE_MODEL_BIT, INFO_BIT, TRACE_COPIES_BIT]

/-- The test `(mode & flag) != 0` on the `int` field `mode`. -/
def isSet (mode flag : Int) : Bool := Int.land mode flag != 0

/-- The value `mode | flag`: the flag's bit set. -/
def setFlag (mode flag : Int) : Int := Int.lor mode flag

/-- The value `mode & ~flag`: the flag's bit cleared. -/
def clearFlag (mode flag : Int) : Int := Int.land mode (Int.lnot flag)

/-- The values of `int`: 32 bits, two's complement. -/
abbrev isInt32 (x : Int) : Prop := -2 ^ 31 ≤ x ∧ x < 2 ^ 31

end OpenCLConfig

/-! ## OpenCLQueue -/

/-- The completion state of an event of the ring. -/
inductive EventState where
  | PENDING
  | COMPLETE
  | ERROR
deriving DecidableEq, Repr

/-- The fields of `OpenCLQueue`: the capacity `eventMax` of the ring, the
ring `events` (the state of the event in each slot), the number `eventc` of
slots in use and the `command_queue` handle. -/
structure OpenCLQueue where
  eventMax : Nat
  events : List EventState
  eventc : Nat
  command_queue : Nat
deriving DecidableEq, Repr

/-- The enqueued events, in submission order: the first `eventc` slots. -/
def OpenCLQueue.enqueued (q : OpenCLQueue) : List EventState :=
  q.events.take q.eventc

/-- Whether an enqueued event is still `PENDING`. -/
def OpenCLQueue.hasPending (q : OpenCLQueue) : Bool :=
  q.enqueued.any (fun e => e == EventState.PENDING)

/-- The number of enqueued events that are still `PENDING`. -/
def OpenCLQueue.pendingCount (q : OpenCLQueue) : Nat :=
  q.enqueued.count EventState.PENDING

/-- Modelled from the spec: the device's progress, missing from the sources
(it belongs to the driver behind `command_queue`).  Events are retired in
submission order: the oldest `PENDING` event of the list, whose slot is
`i` plus its position, reaches `ERROR` when the operation of that slot
fails and `COMPLETE` otherwise. -/
def retireOldest (fails : Nat → Bool) : Nat → List EventState → List EventState
  | _, [] => []
  | i, EventState.PENDING :: es =>
    (if fails i then EventState.ERROR else EventState.COMPLETE) :: es
  | i, e :: es => e :: retireOldest fails (i + 1) es

/-- Modelled from the spec: one step of the device on the queue, missing from
the sources: it retires the oldest pending enqueued event. -/
def OpenCLQueue.deviceStep (fails : Nat → Bool) (q : OpenCLQueue) : OpenCLQueue :=
  { q with events := retireOldest fails 0 q.enqueued ++ q.events.drop q.eventc }

/-- Modelled from the spec: the body of `OpenCLQueue::wait()`, of which the
sources hold the declaration only.  It drains the ring: it returns the queue
once no enqueued event is `PENDING`, and otherwise stays blocked while the
device takes its next step.  `fuel` bounds the device steps it waits for;
`none` means still blocked when the fuel is spent. -/
def OpenCLQueue.wait (fails : Nat → Bool) : Nat → OpenCLQueue → Option OpenCLQueue
  | 0, q => if q.hasPending then none else some q
  | fuel + 1, q =>
    if q.hasPending then OpenCLQueue.wait fails fuel (q.deviceStep fails) else some q

/-- A queue with three enqueued events in a ring of four slots. -/
def sampleQueue : OpenCLQueue :=
  { eventMax := 4
    events := [EventState.COMPLETE, EventState.PENDING, EventState.PENDING,
      EventState.COMPLETE]
    eventc := 3
    command_queue := 1 }

/-! ## Lemmas on `store` and `bind` -/

theorem CudaKernel.store_inRange (k : CudaKernel) (i : Nat) (p : VoidPtr)
    (h : i < k.argslist.length) :
    k.store i p = some (k.withSlot i p) := by
  simp [CudaKernel.store, h]

theorem CudaKernel.withSlot_length (k : CudaKernel) (i : Nat) (p : VoidPtr) :
    (k.withSlot i p).argslist.length = k.argslist.length := by
  simp [CudaKernel.withSlot]

theorem CudaKernel.withSlot_withSlot (k : CudaKernel) (i : Nat) (p q : VoidPtr) :
    (k.withSlot i p).withSlot i q = k.withSlot i q := by
  simp [CudaKernel.withSlot, List.set_set]

theorem CudaKernel.withSlot_comm (k : CudaKernel) (i j : Nat) (p q : VoidPtr)
    (hij : i ≠ j) :
    (k.withSlot i p).withSlot j q = (k.withSlot j q).withSlot i p := by
  simp [CudaKernel.withSlot, List.set_comm _ _ _ hij]

/-- A well-defined call on a slot in range stores its pointer at that slot
and returns `true`. -/
theorem CudaKernel.bind_inRange (k : CudaKernel) (m : Memory) (s : Nat) (b : Binding)
    (hs : s < k.argslist.length) (hb : b.targets m s) :
    ∃ p, b.pointer m = some p ∧ k.bind m b = some (true, k.withSlot s p) := by
  obtain ⟨⟨a, ha, hidx⟩, hp⟩ := hb
  cases b with
  | scalar arg =>
    refine ⟨VoidPtr.valueOf arg, rfl, ?_⟩
    simp only [Binding.arg] at ha
    simp [CudaKernel.bind, CudaKernel.setArg, ha, hidx, CudaKernel.store_inRange _ _ _ hs]
  | buffer arg buf =>
    simp only [Binding.arg] at ha
    simp only [Binding.pointer] at hp
    cases hc : dynamicCastCudaBuffer m buf with
    | none => simp [hc] at hp
    | some c =>
      refine ⟨VoidPtr.devicePtrOf c, by simp [Binding.pointer, hc], ?_⟩
      simp [CudaKernel.bind, CudaKernel.setArgBuffer, ha, hc, hidx,
        CudaKernel.store_inRange _ _ _ hs]

/-- A call on a slot in range: the pointer arrives in the slot. -/
theorem CudaKernel.withSlot_getElem?_self (k : CudaKernel) (i : Nat) (p : VoidPtr)
    (h : i < k.argslist.length) :
    (k.withSlot i p).argslist[i]? = some p := by
  simp [CudaKernel.withSlot, List.getElem?_set_self h]

/-- A store leaves the other slots as they were. -/
theorem CudaKernel.withSlot_getElem?_ne (k : CudaKernel) (i j : Nat) (p : VoidPtr)
    (hij : i ≠ j) :
    (k.withSlot i p).argslist[j]? = k.argslist[j]? := by
  simp [CudaKernel.withSlot, List.getElem?_set_ne hij]

/-- Calls that all address one slot in range: the kernel after them is the
kernel after the last one alone. -/
theorem CudaKernel.bindAll_sameSlot (m : Memory) (s : Nat) (b : Binding)
    (hb : b.targets m s) (bs : List Binding) :
    ∀ k : CudaKernel, s < k.argslist.length → (∀ x ∈ bs, x.targets m s) →
      k.bindAll m (bs ++ [b]) = k.bindAll m [b] := by
  induction bs with
  | nil => intro k _ _; rfl
  | cons c cs ih =>
    intro k hs h
    obtain ⟨p, _, hp⟩ := CudaKernel.bind_inRange k m s c hs (h c (List.mem_cons_self c cs))
    have hlen : s < (k.withSlot s p).argslist.length := by
      rw [CudaKernel.withSlot_length]; exact hs
    have hrec := ih (k.withSlot s p) hlen (fun x hx => h x (List.mem_cons_of_mem c hx))
    obtain ⟨q, _, hq⟩ := CudaKernel.bind_inRange k m s b hs hb
    obtain ⟨q1, _, hq1⟩ := CudaKernel.bind_inRange (k.withSlot s p) m s b hlen hb
    have hqq : q1 = q := by simp_all
    subst hqq
    have e1 : k.bindAll m (c :: cs ++ [b]) = (k.withSlot s p).bindAll m (cs ++ [b]) := by
      simp [CudaKernel.bindAll, hp]
    rw [e1, hrec]
    simp [CudaKernel.bindAll, hq, hq1, CudaKernel.withSlot_withSlot k s p q1]

/-! ## Claims on `CudaKernel::setArg` and `CudaKernel::of` -/

/-- C2: calls of `setArg` (scalar or buffer overload, in any combination) that
all address one slot in range leave the kernel that the last call alone
leaves, and the slot holds the pointer of the last call; this for any number
of earlier calls `bs`, in particular for one. -/
theorem setArg_rebind_keeps_last (k : CudaKernel) (m : Memory) (s : Nat)
    (bs : List Binding) (b : Binding)
    (hs : s < k.arity) (hbs : ∀ x ∈ bs, x.targets m s) (hb : b.targets m s) :
    k.bindAll m (bs ++ [b]) = k.bindAll m [b] ∧
    ∃ k1, k.bindAll m (bs ++ [b]) = some k1 ∧ k1.argslist[s]? = b.pointer m := by
  have h1 := CudaKernel.bindAll_sameSlot m s b hb bs k hs hbs
  refine ⟨h1, ?_⟩
  obtain ⟨p, hp, hk⟩ := CudaKernel.bind_inRange k m s b hs hb
  refine ⟨k.withSlot s p, ?_, ?_⟩
  · rw [h1]; simp [CudaKernel.bindAll, hk]
  · rw [hp]; exact CudaKernel.withSlot_getElem?_self k s p hs

/-- Witness of C2: slot 0 of the two-slot kernel is bound to the scalar at 32,
then to the `CudaBuffer` at 64, then to the scalar at 32 again. -/
theorem setArg_rebind_keeps_last_witness :
    sampleKernel.bindAll sampleMemory
        ([Binding.scalar 32, Binding.buffer 32 64] ++ [Binding.scalar 32]) =
      sampleKernel.bindAll sampleMemory [Binding.scalar 32] ∧
    ∃ k1, sampleKernel.bindAll sampleMemory
        ([Binding.scalar 32, Binding.buffer 32 64] ++ [Binding.scalar 32]) = some k1 ∧
      k1.argslist[0]? = (Binding.scalar 32).pointer sampleMemory :=
  setArg_rebind_keeps_last sampleKernel sampleMemory 0
    [Binding.scalar 32, Binding.buffer 32 64] (Binding.scalar 32) (by decide)
    (by
      intro x hx
      simp only [List.mem_cons, List.mem_singleton, List.not_mem_nil, or_false] at hx
      rcases hx with rfl | rfl
      · exact ⟨⟨{ idx := 0, value := 5 }, by decide, rfl⟩, by decide⟩
      · exact ⟨⟨{ idx := 0, value := 5 }, by decide, rfl⟩, by decide⟩)
    ⟨⟨{ idx := 0, value := 5 }, by decide, rfl⟩, by decide⟩

/-- C3: after `setArg(arg, b)` on a slot in range with a live `CudaBuffer`
`b`, the slot holds the address of the field `b->devicePtr`, and what the
slot delivers at launch is the `devicePtr` that `b` has in the memory of the
launch, also after `b->devicePtr` was assigned following the call. -/
theorem setArgBuffer_slot_tracks_devicePtr (k : CudaKernel) (m : Memory) (arg : Ptr)
    (a : KernelArg) (buffer : Ptr) (d : Nat)
    (hlive : m.kernelArgs arg = some a) (hs : a.idx < k.arity)
    (hnull : buffer ≠ nullptr) (hbuf : m.buffers buffer = some (Buffer.cudaBuffer d)) :
    ∃ k1, k.setArgBuffer m arg buffer = some (true, k1) ∧
      k1.argslist[a.idx]? = some (VoidPtr.devicePtrOf buffer) ∧
      k1.launchArg m a.idx = some d ∧
      (∀ d1, k1.launchArg (m.assignDevicePtr buffer d1) a.idx = some d1) ∧
      (∀ (m1 : Memory) (d1 : Nat), m1.buffers buffer = some (Buffer.cudaBuffer d1) →
        k1.launchArg m1 a.idx = some d1) := by
  have hcast : dynamicCastCudaBuffer m buffer = some buffer := by
    simp [dynamicCastCudaBuffer, hnull, hbuf]
  have hslot := CudaKernel.withSlot_getElem?_self k a.idx (VoidPtr.devicePtrOf buffer) hs
  have hgen : ∀ (m1 : Memory) (d1 : Nat),
      m1.buffers buffer = some (Buffer.cudaBuffer d1) →
      (k.withSlot a.idx (VoidPtr.devicePtrOf buffer)).launchArg m1 a.idx = some d1 := by
    intro m1 d1 h1
    simp [CudaKernel.launchArg, hslot, Memory.load, hnull, h1]
  refine ⟨k.withSlot a.idx (VoidPtr.devicePtrOf buffer),
    by simp [CudaKernel.setArgBuffer, hlive, hcast, CudaKernel.store_inRange _ _ _ hs],
    hslot, hgen m d hbuf, ?_, hgen⟩
  intro d1
  apply hgen
  simp [Memory.assignDevicePtr, hbuf]

/-- Witness of C3: slot 1 of the two-slot kernel is bound to the `CudaBuffer`
at 64, whose device pointer is still 0 at the call. -/
theorem setArgBuffer_slot_tracks_devicePtr_witness :
    ∃ k1, sampleKernel.setArgBuffer sampleMemory 48 64 = some (true, k1) ∧
      k1.argslist[1]? = some (VoidPtr.devicePtrOf 64) ∧
      k1.launchArg sampleMemory 1 = some 0 ∧
      (∀ d1, k1.launchArg (sampleMemory.assignDevicePtr 64 d1) 1 = some d1) ∧
      (∀ (m1 : Memory) (d1 : Nat), m1.buffers 64 = some (Buffer.cudaBuffer d1) →
        k1.launchArg m1 1 = some d1) :=
  setArgBuffer_slot_tracks_devicePtr sampleKernel sampleMemory 48 { idx := 1, value := 6 }
    64 0 (by decide) (by decide) (by decide) (by decide)

/-- C4, as stated, fails: slot 0 of the two-slot kernel is bound to the scalar
at 32, whose value is 5 at the call; the value is then set to 9, and the slot
delivers 9 at launch, not 5. -/
theorem setArg_scalar_not_by_value :
    sampleMemory.kernelArgs 32 = some { idx := 0, value := 5 } ∧
    ∃ k1, sampleKernel.setArg sampleMemory 32 = some (true, k1) ∧
      k1.launchArg (sampleMemory.assignValue 32 9) 0 = some 9 ∧
      k1.launchArg (sampleMemory.assignValue 32 9) 0 ≠ some 5 := by
  refine ⟨by decide, _, rfl, by decide, by decide⟩

/-- C4, amended: `setArg(a)` on a slot in range stores the address of the
field `a->value`; the slot delivers at launch the value that `a` has in the
memory of the launch: the value of the call when it was not modified since,
the new value when it was. -/
theorem setArg_slot_tracks_value (k : CudaKernel) (m : Memory) (arg : Ptr)
    (a : KernelArg)
    (hlive : m.kernelArgs arg = some a) (hs : a.idx < k.arity) (hnull : arg ≠ nullptr) :
    ∃ k1, k.setArg m arg = some (true, k1) ∧
      k1.argslist[a.idx]? = some (VoidPtr.valueOf arg) ∧
      k1.launchArg m a.idx = some a.value ∧
      (∀ v, k1.launchArg (m.assignValue arg v) a.idx = some v) ∧
      (∀ (m1 : Memory) (a1 : KernelArg), m1.kernelArgs arg = some a1 →
        k1.launchArg m1 a.idx = some a1.value) := by
  have hslot := CudaKernel.withSlot_getElem?_self k a.idx (VoidPtr.valueOf arg) hs
  have hgen : ∀ (m1 : Memory) (a1 : KernelArg), m1.kernelArgs arg = some a1 →
      (k.withSlot a.idx (VoidPtr.valueOf arg)).launchArg m1 a.idx = some a1.value := by
    intro m1 a1 h1
    simp [CudaKernel.launchArg, hslot, Memory.load, hnull, h1]
  refine ⟨k.withSlot a.idx (VoidPtr.valueOf arg),
    by simp [CudaKernel.setArg, hlive, CudaKernel.store_inRange _ _ _ hs], hslot,
    hgen m a hlive, ?_, hgen⟩
  intro v
  exact hgen (m.assignValue arg v) { a with value := v } (by simp [Memory.assignValue, hlive])

/-- Witness of C4 amended: slot 0 of the two-slot kernel and the scalar at 32. -/
theorem setArg_slot_tracks_value_witness :
    ∃ k1, sampleKernel.setArg sampleMemory 32 = some (true, k1) ∧
      k1.argslist[0]? = some (VoidPtr.valueOf 32) ∧
      k1.launchArg sampleMemory 0 = some 5 ∧
      (∀ v, k1.launchArg (sampleMemory.assignValue 32 v) 0 = some v) ∧
      (∀ (m1 : Memory) (a1 : KernelArg), m1.kernelArgs 32 = some a1 →
        k1.launchArg m1 0 = some a1.value) :=
  setArg_slot_tracks_value sampleKernel sampleMemory 32 { idx := 0, value := 5 }
    (by decide) (by decide) (by decide)

/-- C5, as stated, fails: with the kernel at 8192 as the only live kernel,
`of(4096)` is the non-null pointer 4096, which is no live kernel. -/
theorem of_unknown_handle_not_null :
    CudaKernel.of 4096 = 4096 ∧ CudaKernel.of 4096 ≠ nullptr ∧
    CudaKernel.of 4096 ∉ ([8192] : List Ptr) := by
  decide

/-- C5, amended: `of(h)` is the pointer with the bit pattern of the 64-bit
handle `h`, whatever kernels are live: the address `h` itself for `h ≥ 0`,
and the null pointer exactly for `h = 0`. -/
theorem of_is_reinterpret_cast (h : Int) (hlo : -2 ^ 63 ≤ h) (hhi : h < 2 ^ 63) :
    ((CudaKernel.of h : Nat) : Int) = h % 2 ^ 64 ∧
    (0 ≤ h → ((CudaKernel.of h : Nat) : Int) = h) ∧
    (CudaKernel.of h = nullptr ↔ h = 0) := by
  have hmod : (0 : Int) ≤ h % 2 ^ 64 := Int.emod_nonneg h (by norm_num)
  have hcast : ((CudaKernel.of h : Nat) : Int) = h % 2 ^ 64 := by
    unfold CudaKernel.of
    exact Int.toNat_of_nonneg hmod
  refine ⟨hcast, ?_, ?_⟩
  · intro h0
    rw [hcast]
    exact Int.emod_eq_of_lt h0 (by omega)
  · constructor
    · intro hz
      have : ((CudaKernel.of h : Nat) : Int) = 0 := by rw [hz]; rfl
      rw [hcast] at this
      omega
    · intro hz
      subst hz
      rfl

/-- Witness of C5 amended: the handle 4096. -/
theorem of_is_reinterpret_cast_witness :
    ((CudaKernel.of 4096 : Nat) : Int) = 4096 % 2 ^ 64 ∧
    ((0 : Int) ≤ 4096 → ((CudaKernel.of 4096 : Nat) : Int) = 4096) ∧
    (CudaKernel.of 4096 = nullptr ↔ (4096 : Int) = 0) :=
  of_is_reinterpret_cast 4096 (by norm_num) (by norm_num)

/-- C6, as stated, fails: `setArg(arg, buffer)` on slot 0 of the two-slot
kernel returns `true` and writes the slot, both for the null buffer and for
the `Buffer` at 96, which is not a `CudaBuffer`. -/
theorem setArgBuffer_unresolved_reports_success :
    dynamicCastCudaBuffer sampleMemory nullptr = some nullptr ∧
    dynamicCastCudaBuffer sampleMemory 96 = some nullptr ∧
    sampleKernel.setArgBuffer sampleMemory 32 nullptr =
      some (true, { sampleKernel with
        argslist := [VoidPtr.devicePtrOf nullptr, VoidPtr.null] }) ∧
    sampleKernel.setArgBuffer sampleMemory 32 96 =
      some (true, { sampleKernel with
        argslist := [VoidPtr.devicePtrOf nullptr, VoidPtr.null] }) := by
  decide

/-- C6, amended: `setArg(arg, buffer)` on a slot in range does not check the
cast: for a null buffer and for a `Buffer` that is not a `CudaBuffer` it
returns `true` (no binding failure), and the slot then holds the address of
the `devicePtr` field taken on the null cast result, through which no device
pointer is delivered at launch. -/
theorem setArgBuffer_unresolved_returns_true (k : CudaKernel) (m : Memory) (arg : Ptr)
    (a : KernelArg) (buffer : Ptr)
    (hlive : m.kernelArgs arg = some a) (hs : a.idx < k.arity)
    (hbuf : buffer = nullptr ∨ m.buffers buffer = some Buffer.otherBuffer) :
    ∃ k1, k.setArgBuffer m arg buffer = some (true, k1) ∧
      k1.argslist[a.idx]? = some (VoidPtr.devicePtrOf nullptr) ∧
      ∀ m1 : Memory, k1.launchArg m1 a.idx = none := by
  have hcast : dynamicCastCudaBuffer m buffer = some nullptr := by
    unfold dynamicCastCudaBuffer
    rcases hbuf with h | h
    · simp [h]
    · split
      · rfl
      · simp [h]
  have hslot := CudaKernel.withSlot_getElem?_self k a.idx (VoidPtr.devicePtrOf nullptr) hs
  refine ⟨k.withSlot a.idx (VoidPtr.devicePtrOf nullptr),
    by simp [CudaKernel.setArgBuffer, hlive, hcast, CudaKernel.store_inRange _ _ _ hs],
    hslot, ?_⟩
  intro m1
  simp [CudaKernel.launchArg, hslot, Memory.load]

/-- Witness of C6 amended: slot 0 of the two-slot kernel and the `Buffer` at
96, which is not a `CudaBuffer`. -/
theorem setArgBuffer_unresolved_returns_true_witness :
    ∃ k1, sampleKernel.setArgBuffer sampleMemory 32 96 = some (true, k1) ∧
      k1.argslist[0]? = some (VoidPtr.devicePtrOf nullptr) ∧
      ∀ m1 : Memory, k1.launchArg m1 0 = none :=
  setArgBuffer_unresolved_returns_true sampleKernel sampleMemory 32 { idx := 0, value := 5 }
    96 (by decide) (by decide) (Or.inr (by decide))

/-- C10: a call of either `setArg` overload on a slot `s` in range leaves
every other slot, and the kernel's name, program and function, as they were;
and two calls on different slots in range give the same kernel in either
order. -/
theorem setArg_frame (k : CudaKernel) (m : Memory) (s : Nat) (b : Binding)
    (hs : s < k.arity) (hb : b.targets m s) :
    (∃ k1, k.bind m b = some (true, k1) ∧
      (∀ j, j ≠ s → k1.argslist[j]? = k.argslist[j]?) ∧
      k1.name = k.name ∧ k1.program = k.program ∧ k1.function = k.function) ∧
    ∀ (t : Nat) (c : Binding), t < k.arity → t ≠ s → c.targets m t →
      k.bindAll m [b, c] = k.bindAll m [c, b] ∧ (k.bindAll m [b, c]).isSome = true := by
  obtain ⟨p, _, hk⟩ := CudaKernel.bind_inRange k m s b hs hb
  constructor
  · refine ⟨k.withSlot s p, hk, ?_, rfl, rfl, rfl⟩
    intro j hj
    exact CudaKernel.withSlot_getElem?_ne k s j p (Ne.symm hj)
  · intro t c ht hts hc
    obtain ⟨q, _, hq⟩ := CudaKernel.bind_inRange k m t c ht hc
    obtain ⟨q1, hq1, hkq⟩ := CudaKernel.bind_inRange (k.withSlot s p) m t c
      (by rw [CudaKernel.withSlot_length]; exact ht) hc
    obtain ⟨p1, hp1, hkp⟩ := CudaKernel.bind_inRange (k.withSlot t q) m s b
      (by rw [CudaKernel.withSlot_length]; exact hs) hb
    have e1 : q1 = q := by simp_all
    have e2 : p1 = p := by simp_all
    subst e1 e2
    have hcomm := CudaKernel.withSlot_comm k s t p1 q1 (Ne.symm hts)
    simp [CudaKernel.bindAll, hk, hq, hkq, hkp, hcomm]

/-- Witness of C10: slot 0 of the two-slot kernel is bound to the scalar at
32. -/
theorem setArg_frame_witness :
    (∃ k1, sampleKernel.bind sampleMemory (Binding.scalar 32) = some (true, k1) ∧
      (∀ j, j ≠ 0 → k1.argslist[j]? = sampleKernel.argslist[j]?) ∧
      k1.name = sampleKernel.name ∧ k1.program = sampleKernel.program ∧
      k1.function = sampleKernel.function) ∧
    ∀ (t : Nat) (c : Binding), t < sampleKernel.arity → t ≠ 0 →
      c.targets sampleMemory t →
      sampleKernel.bindAll sampleMemory [Binding.scalar 32, c] =
        sampleKernel.bindAll sampleMemory [c, Binding.scalar 32] ∧
      (sampleKernel.bindAll sampleMemory [Binding.scalar 32, c]).isSome = true :=
  setArg_frame sampleKernel sampleMemory 0 (Binding.scalar 32) (by decide)
    ⟨⟨{ idx := 0, value := 5 }, by decide, rfl⟩, by decide⟩

/-! ## Claim on the `OpenCLConfig` bits -/

namespace OpenCLConfig

theorem nat_eq_zero_iff_testBit (x : Nat) : x = 0 ↔ ∀ i, x.testBit i = false := by
  constructor
  · intro h i; subst h; exact Nat.zero_testBit i
  · intro h
    by_contra hx
    obtain ⟨i, hi⟩ := Nat.ne_zero_implies_bit_true hx
    rw [h i] at hi
    exact Bool.false_ne_true hi

/-- The test of a single bit: `(mode & 2^j) != 0` is bit `j` of `mode`. -/
theorem isSet_two_pow (m : Int) (j : Nat) :
    isSet m ((2 ^ j : Nat) : Int) = m.testBit j := by
  unfold isSet
  cases m with
  | ofNat n =>
    show (((Nat.land n (2 ^ j) : Nat) : Int) != 0) = n.testBit j
    cases hb : n.testBit j
    · have : Nat.land n (2 ^ j) = 0 := by
        rw [nat_eq_zero_iff_testBit]
        intro i
        show (n &&& 2 ^ j).testBit i = false
        rw [Nat.testBit_and, Nat.testBit_two_pow]
        by_cases hij : j = i
        · subst hij; simp [hb]
        · simp [hij]
      simp [this]
    · have : Nat.land n (2 ^ j) ≠ 0 := by
        intro h0
        have := (nat_eq_zero_iff_testBit _).mp h0 j
        change (n &&& 2 ^ j).testBit j = false at this
        rw [Nat.testBit_and, Nat.testBit_two_pow_self, hb] at this
        simp at this
      simpa using this
  | negSucc n =>
    show (((Nat.ldiff (2 ^ j) n : Nat) : Int) != 0) = !(n.testBit j)
    cases hb : n.testBit j
    · have : Nat.ldiff (2 ^ j) n ≠ 0 := by
        intro h0
        have := (nat_eq_zero_iff_testBit _).mp h0 j
        rw [Nat.testBit_ldiff, Nat.testBit_two_pow_self, hb] at this
        simp at this
      simpa using this
    · have : Nat.ldiff (2 ^ j) n = 0 := by
        rw [nat_eq_zero_iff_testBit]
        intro i
        rw [Nat.testBit_ldiff, Nat.testBit_two_pow]
        by_cases hij : j = i
        · subst hij; simp [hb]
        · simp [hij]
      simp [this]

/-- Setting bit `i` leaves the test of another bit `j` as it was. -/
theorem isSet_setFlag_two_pow (m : Int) (i j : Nat) (hij : i ≠ j) :
    isSet (setFlag m ((2 ^ i : Nat) : Int)) ((2 ^ j : Nat) : Int) =
      isSet m ((2 ^ j : Nat) : Int) := by
  rw [isSet_two_pow, isSet_two_pow, setFlag, Int.testBit_lor]
  have : Int.testBit ((2 ^ i : Nat) : Int) j = false := by
    show Nat.testBit (2 ^ i) j = false
    exact Nat.testBit_two_pow_of_ne hij
  rw [this]
  simp

/-- Clearing bit `i` leaves the test of another bit `j` as it was. -/
theorem isSet_clearFlag_two_pow (m : Int) (i j : Nat) (hij : i ≠ j) :
    isSet (clearFlag m ((2 ^ i : Nat) : Int)) ((2 ^ j : Nat) : Int) =
      isSet m ((2 ^ j : Nat) : Int) := by
  rw [isSet_two_pow, isSet_two_pow, clearFlag, Int.testBit_land, Int.testBit_lnot]
  have : Int.testBit ((2 ^ i : Nat) : Int) j = false := by
    show Nat.testBit (2 ^ i) j = false
    exact Nat.testBit_two_pow_of_ne hij
  rw [this]
  simp

/-- The flags are the powers of two with exponents 1 to 10. -/
theorem flags_eq_powers :
    flags = (List.range 10).map (fun i => ((2 ^ (i + 1) : Nat) : Int)) := by
  decide

theorem mem_flags_iff (X : Int) :
    X ∈ flags ↔ ∃ i, i < 10 ∧ X = ((2 ^ (i + 1) : Nat) : Int) := by
  rw [flags_eq_powers]
  simp only [List.mem_map, List.mem_range]
  constructor
  · rintro ⟨i, hi, rfl⟩; exact ⟨i, hi, rfl⟩
  · rintro ⟨i, hi, rfl⟩; exact ⟨i, hi, rfl⟩

end OpenCLConfig

/-- C8: the ten `OpenCLConfig` flag constants are the single-bit values
`2^1 .. 2^10`, pairwise distinct and within `int`; for every `mode` and every
two different flags `X` and `Y`, setting or clearing the bit of `X` in `mode`
leaves the test `(mode & Y) != 0` as it was; and in `mode = 0` every flag
tests as unset. -/
theorem OpenCLConfig.flags_are_independent_bits :
    OpenCLConfig.flags = (List.range 10).map (fun i => (2 : Int) ^ (i + 1)) ∧
    OpenCLConfig.flags.Nodup ∧
    (∀ X ∈ OpenCLConfig.flags, OpenCLConfig.isInt32 X) ∧
    (∀ (mode X Y : Int), X ∈ OpenCLConfig.flags → Y ∈ OpenCLConfig.flags → X ≠ Y →
      OpenCLConfig.isSet (OpenCLConfig.setFlag mode X) Y = OpenCLConfig.isSet mode Y ∧
      OpenCLConfig.isSet (OpenCLConfig.clearFlag mode X) Y = OpenCLConfig.isSet mode Y) ∧
    (∀ Y ∈ OpenCLConfig.flags, OpenCLConfig.isSet 0 Y = false) := by
  refine ⟨by decide, by decide, by decide, ?_, by decide⟩
  intro mode X Y hX hY hXY
  obtain ⟨i, _, rfl⟩ := (OpenCLConfig.mem_flags_iff X).mp hX
  obtain ⟨j, _, rfl⟩ := (OpenCLConfig.mem_flags_iff Y).mp hY
  have hij : i + 1 ≠ j + 1 := by
    intro h
    exact hXY (by rw [h])
  exact ⟨OpenCLConfig.isSet_setFlag_two_pow mode _ _ hij,
    OpenCLConfig.isSet_clearFlag_two_pow mode _ _ hij⟩

/-- Witness of C8: in the mode with `GPU_BIT` and `TRACE_BIT` set, setting or
clearing `TRACE_BIT` leaves the test of `GPU_BIT` as it was. -/
theorem OpenCLConfig.flags_are_independent_bits_witness :
    OpenCLConfig.isSet (OpenCLConfig.setFlag 18 OpenCLConfig.TRACE_BIT)
        OpenCLConfig.GPU_BIT = OpenCLConfig.isSet 18 OpenCLConfig.GPU_BIT ∧
    OpenCLConfig.isSet (OpenCLConfig.clearFlag 18 OpenCLConfig.TRACE_BIT)
        OpenCLConfig.GPU_BIT = OpenCLConfig.isSet 18 OpenCLConfig.GPU_BIT :=
  OpenCLConfig.flags_are_independent_bits.2.2.2.1 18 OpenCLConfig.TRACE_BIT
    OpenCLConfig.GPU_BIT (by decide) (by decide) (by decide)

/-! ## Claim on `OpenCLQueue::wait` -/

theorem retireOldest_length (fails : Nat → Bool) (l : List EventState) :
    ∀ i, (retireOldest fails i l).length = l.length := by
  induction l with
  | nil => intro i; rfl
  | cons e es ih =>
    intro i
    cases e <;> simp [retireOldest, ih]

/-- A device step retires exactly one pending event, when there is one. -/
theorem retireOldest_count (fails : Nat → Bool) (l : List EventState) :
    ∀ i, (retireOldest fails i l).count EventState.PENDING =
      l.count EventState.PENDING - 1 := by
  induction l with
  | nil => intro i; rfl
  | cons e es ih =>
    intro i
    cases e with
    | PENDING =>
      cases hf : fails i <;> simp [retireOldest, hf, List.count_cons]
    | COMPLETE => simp [retireOldest, ih, List.count_cons]
    | ERROR => simp [retireOldest, ih, List.count_cons]

theorem OpenCLQueue.deviceStep_eventc (fails : Nat → Bool) (q : OpenCLQueue) :
    (q.deviceStep fails).eventc = q.eventc := rfl

theorem OpenCLQueue.deviceStep_enqueued (fails : Nat → Bool) (q : OpenCLQueue) :
    (q.deviceStep fails).enqueued = retireOldest fails 0 q.enqueued := by
  unfold OpenCLQueue.enqueued OpenCLQueue.deviceStep
  simp only [OpenCLQueue.enqueued]
  rw [List.take_append_eq_append_take, retireOldest_length, List.length_take]
  have h1 : List.take q.eventc (retireOldest fails 0 (List.take q.eventc q.events)) =
      retireOldest fails 0 (List.take q.eventc q.events) := by
    apply List.take_of_length_le
    rw [retireOldest_length, List.length_take]
    exact Nat.min_le_left _ _
  have h2 : List.take (q.eventc - min q.eventc q.events.length)
      (List.drop q.eventc q.events) = [] := by
    rcases Nat.le_total q.eventc q.events.length with h | h
    · simp [Nat.min_eq_left h]
    · simp [List.drop_of_length_le h]
  rw [h1, h2, List.append_nil]

theorem OpenCLQueue.deviceStep_pendingCount (fails : Nat → Bool) (q : OpenCLQueue) :
    (q.deviceStep fails).pendingCount = q.pendingCount - 1 := by
  unfold OpenCLQueue.pendingCount
  rw [OpenCLQueue.deviceStep_enqueued, retireOldest_count]

theorem OpenCLQueue.hasPending_iff (q : OpenCLQueue) :
    q.hasPending = true ↔ 0 < q.pendingCount := by
  unfold OpenCLQueue.hasPending OpenCLQueue.pendingCount
  rw [List.count_pos_iff, List.any_eq_true]
  constructor
  · rintro ⟨e, he, h⟩
    have : e = EventState.PENDING := by simpa using h
    exact this ▸ he
  · intro h
    exact ⟨EventState.PENDING, h, by simp⟩

theorem OpenCLQueue.pendingCount_le (q : OpenCLQueue) : q.pendingCount ≤ q.eventc := by
  unfold OpenCLQueue.pendingCount OpenCLQueue.enqueued
  calc (List.take q.eventc q.events).count EventState.PENDING
      ≤ (List.take q.eventc q.events).length := List.count_le_length _ _
    _ ≤ q.eventc := by rw [List.length_take]; exact Nat.min_le_left _ _

/-- With no pending event, every enqueued event is in a terminal state. -/
theorem OpenCLQueue.terminal_of_not_hasPending (q : OpenCLQueue)
    (h : q.hasPending = false) :
    ∀ e ∈ q.enqueued, e = EventState.COMPLETE ∨ e = EventState.ERROR := by
  intro e he
  cases e with
  | PENDING =>
    have : q.hasPending = true := by
      unfold OpenCLQueue.hasPending
      rw [List.any_eq_true]
      exact ⟨EventState.PENDING, he, by simp⟩
    rw [h] at this
    exact absurd this Bool.false_ne_true
  | COMPLETE => exact Or.inl rfl
  | ERROR => exact Or.inr rfl

/-- Whenever `wait` returns, no enqueued event is pending, and the ring keeps
its `eventc`. -/
theorem OpenCLQueue.wait_returns_drained (fails : Nat → Bool) :
    ∀ (fuel : Nat) (q q1 : OpenCLQueue), OpenCLQueue.wait fails fuel q = some q1 →
      q1.hasPending = false ∧ q1.eventc = q.eventc := by
  intro fuel
  induction fuel with
  | zero =>
    intro q q1 h
    cases hp : q.hasPending
    · simp [OpenCLQueue.wait, hp] at h
      subst h
      exact ⟨hp, rfl⟩
    · simp [OpenCLQueue.wait, hp] at h
  | succ n ih =>
    intro q q1 h
    cases hp : q.hasPending
    · simp [OpenCLQueue.wait, hp] at h
      subst h
      exact ⟨hp, rfl⟩
    · simp only [OpenCLQueue.wait, hp, if_true] at h
      obtain ⟨h1, h2⟩ := ih _ _ h
      exact ⟨h1, by rw [h2, OpenCLQueue.deviceStep_eventc]⟩

/-- After as many device steps as there are pending events, `wait` returns. -/
theorem OpenCLQueue.wait_returns (fails : Nat → Bool) :
    ∀ (fuel : Nat) (q : OpenCLQueue), q.pendingCount ≤ fuel →
      ∃ q1, OpenCLQueue.wait fails fuel q = some q1 := by
  intro fuel
  induction fuel with
  | zero =>
    intro q h
    have hp : q.hasPending = false := by
      cases hq : q.hasPending
      · rfl
      · have := (OpenCLQueue.hasPending_iff q).mp hq
        omega
    exact ⟨q, by simp [OpenCLQueue.wait, hp]⟩
  | succ n ih =>
    intro q h
    cases hp : q.hasPending
    · exact ⟨q, by simp [OpenCLQueue.wait, hp]⟩
    · have hstep : (q.deviceStep fails).pendingCount ≤ n := by
        rw [OpenCLQueue.deviceStep_pendingCount]; omega
      obtain ⟨q1, h1⟩ := ih (q.deviceStep fails) hstep
      exact ⟨q1, by simp [OpenCLQueue.wait, hp, h1]⟩

/-- Before the device has retired every pending event, `wait` is blocked. -/
theorem OpenCLQueue.wait_blocked (fails : Nat → Bool) :
    ∀ (fuel : Nat) (q : OpenCLQueue), fuel < q.pendingCount →
      OpenCLQueue.wait fails fuel q = none := by
  intro fuel
  induction fuel with
  | zero =>
    intro q h
    have hp : q.hasPending = true := (OpenCLQueue.hasPending_iff q).mpr h
    simp [OpenCLQueue.wait, hp]
  | succ n ih =>
    intro q h
    have hp : q.hasPending = true := (OpenCLQueue.hasPending_iff q).mpr (by omega)
    have hstep : n < (q.deviceStep fails).pendingCount := by
      rw [OpenCLQueue.deviceStep_pendingCount]; omega
    simp [OpenCLQueue.wait, hp, ih _ hstep]

/-- C9: for every state of the event ring, `wait` stays blocked as long as the
device has not retired every pending enqueued event, it returns once the
device has taken enough steps, and whenever it returns, every enqueued event
is `COMPLETE` or `ERROR`. -/
theorem OpenCLQueue.wait_drains_ring (fails : Nat → Bool) (q : OpenCLQueue) :
    (∀ fuel, fuel < q.pendingCount → OpenCLQueue.wait fails fuel q = none) ∧
    (∀ fuel, q.eventc ≤ fuel → ∃ q1, OpenCLQueue.wait fails fuel q = some q1) ∧
    (∀ fuel q1, OpenCLQueue.wait fails fuel q = some q1 →
      q1.eventc = q.eventc ∧ q1.hasPending = false ∧
      ∀ e ∈ q1.enqueued, e = EventState.COMPLETE ∨ e = EventState.ERROR) := by
  refine ⟨fun fuel h => OpenCLQueue.wait_blocked fails fuel q h, ?_, ?_⟩
  · intro fuel h
    exact OpenCLQueue.wait_returns fails fuel q (Nat.le_trans q.pendingCount_le h)
  · intro fuel q1 h
    obtain ⟨h1, h2⟩ := OpenCLQueue.wait_returns_drained fails fuel q q1 h
    exact ⟨h2, h1, OpenCLQueue.terminal_of_not_hasPending q1 h1⟩

/-- Witness of C9: the ring with two pending events among its three enqueued
ones, the operation of slot 2 failing: `wait` is blocked after one device
step and returns after three. -/
theorem OpenCLQueue.wait_drains_ring_witness :
    OpenCLQueue.wait (fun i => i == 2) 1 sampleQueue = none ∧
    ∃ q1, OpenCLQueue.wait (fun i => i == 2) 3 sampleQueue = some q1 :=
  ⟨(OpenCLQueue.wait_drains_ring (fun i => i == 2) sampleQueue).1 1 (by decide),
    (OpenCLQueue.wait_drains_ring (fun i => i == 2) sampleQueue).2.1 3 (by decide)⟩

end Hat
